import Mathlib

/-!
Shallow embedding of the DigtialEmployee repository (Python) and proofs about
its specification claims.

The embedding translates the source files under `app/` as follows:
* `app/core/speech.py` (`XunfeiASR.create_url`, `XunfeiASR.process_audio`):
  byte sequences are `List Nat` (each element a byte value `< 256`), base64 is
  implemented concretely, HMAC-SHA256 is implemented concretely over byte lists
  with 32-bit words represented as `Nat` reduced `% 2^32`.
* `app/agent/tools.py` and `app/agent/companion_agent.py`: the SQLAlchemy
  session is an explicit pair of database states (`committed`, `current`);
  `session.add`/attribute mutation edit `current`, `commit` copies `current`
  into `committed` (or fails, which the caller observes), `rollback` restores
  `current` from `committed`.  Rows are kept in insertion order, which is also
  timestamp order because every timestamp comes from a monotone clock.
* Python `dict` registries become association lists with last-binding-wins
  lookup; Python `None` becomes `Option.none`; raised exceptions become
  `Except.error`.
-/

namespace DigitalEmployee

/-! ## Base64 (faithful model of `base64.b64encode` / `b64decode` on bytes) -/

/-- The standard base64 alphabet, as in `base64.b64encode`. -/
def b64Table : List Char :=
  "ABCDEFGHIJKLMNOPQRSTUVWXYZabcdefghijklmnopqrstuvwxyz0123456789+/".data

/-- Character for a sextet value (values `< 64` index the alphabet). -/
def b64Char (i : Nat) : Char := b64Table.getD i '?'

/-- Index of a character in the base64 alphabet. -/
def b64Index (c : Char) : Nat := b64Table.indexOf c

/-- Encode byte groups of three into four base64 characters, padding the final
partial group with `'='` exactly as `base64.b64encode` does. -/
def encodeGroups : List Nat → List Char
  | b1 :: b2 :: b3 :: rest =>
      b64Char (b1 / 4) :: b64Char ((b1 % 4) * 16 + b2 / 16) ::
      b64Char ((b2 % 16) * 4 + b3 / 64) :: b64Char (b3 % 64) :: encodeGroups rest
  | [b1, b2] =>
      [b64Char (b1 / 4), b64Char ((b1 % 4) * 16 + b2 / 16), b64Char ((b2 % 16) * 4), '=']
  | [b1] =>
      [b64Char (b1 / 4), b64Char ((b1 % 4) * 16), '=', '=']
  | [] => []

/-- Model of `base64.b64encode(bytes).decode()` on a byte list. -/
def base64Encode (bs : List Nat) : String := ⟨encodeGroups bs⟩

/-- Reassemble bytes from a list of sextet values (padding already stripped). -/
def decodeSextets : List Nat → List Nat
  | s1 :: s2 :: s3 :: s4 :: rest =>
      (s1 * 4 + s2 / 16) :: ((s2 % 16) * 16 + s3 / 4) :: ((s3 % 4) * 64 + s4) ::
      decodeSextets rest
  | [s1, s2, s3] => [s1 * 4 + s2 / 16, (s2 % 16) * 16 + s3 / 4]
  | [s1, s2] => [s1 * 4 + s2 / 16]
  | _ => []

/-- Model of `base64.b64decode` on a base64 string. -/
def base64Decode (s : String) : List Nat :=
  decodeSextets ((s.data.filter (fun c => c ≠ '=')).map b64Index)

theorem b64Index_b64Char {i : Nat} (h : i < 64) : b64Index (b64Char i) = i := by
  revert h
  revert i
  decide

theorem b64Char_ne_eq {i : Nat} (h : i < 64) : decide (b64Char i ≠ '=') = true := by
  revert h
  revert i
  decide

/-- The sextet stream obtained back from an encoded byte list. -/
theorem filter_map_encodeGroups (bs : List Nat) (hb : ∀ b ∈ bs, b < 256) :
    ((encodeGroups bs).filter (fun c => c ≠ '=')).map b64Index =
      (match bs with
        | b1 :: b2 :: b3 :: rest =>
            (b1 / 4) :: ((b1 % 4) * 16 + b2 / 16) :: ((b2 % 16) * 4 + b3 / 64) ::
            (b3 % 64) ::
            ((encodeGroups rest).filter (fun c => c ≠ '=')).map b64Index
        | [b1, b2] => [b1 / 4, (b1 % 4) * 16 + b2 / 16, (b2 % 16) * 4]
        | [b1] => [b1 / 4, (b1 % 4) * 16]
        | [] => []) := by
  have e0 : decide (('=' : Char) ≠ '=') = false := by decide
  match bs with
  | [] => rfl
  | [b1] =>
      have h1 : b1 < 256 := hb b1 (by simp)
      have e1 := b64Char_ne_eq (i := b1 / 4) (by omega)
      have e2 := b64Char_ne_eq (i := b1 % 4 * 16) (by omega)
      have i1 := b64Index_b64Char (i := b1 / 4) (by omega)
      have i2 := b64Index_b64Char (i := b1 % 4 * 16) (by omega)
      simp only [encodeGroups, List.filter_cons, e0, e1, e2, eq_self_iff_true,
        if_true, Bool.false_eq_true, if_false, List.filter_nil, List.map_cons,
        List.map_nil, i1, i2]
  | [b1, b2] =>
      have h1 : b1 < 256 := hb b1 (by simp)
      have h2 : b2 < 256 := hb b2 (by simp)
      have e1 := b64Char_ne_eq (i := b1 / 4) (by omega)
      have e2 := b64Char_ne_eq (i := b1 % 4 * 16 + b2 / 16) (by omega)
      have e3 := b64Char_ne_eq (i := b2 % 16 * 4) (by omega)
      have i1 := b64Index_b64Char (i := b1 / 4) (by omega)
      have i2 := b64Index_b64Char (i := b1 % 4 * 16 + b2 / 16) (by omega)
      have i3 := b64Index_b64Char (i := b2 % 16 * 4) (by omega)
      simp only [encodeGroups, List.filter_cons, e0, e1, e2, e3, eq_self_iff_true,
        if_true, Bool.false_eq_true, if_false, List.filter_nil, List.map_cons,
        List.map_nil, i1, i2, i3]
  | b1 :: b2 :: b3 :: rest =>
      have h1 : b1 < 256 := hb b1 (by simp)
      have h2 : b2 < 256 := hb b2 (by simp)
      have h3 : b3 < 256 := hb b3 (by simp)
      have e1 := b64Char_ne_eq (i := b1 / 4) (by omega)
      have e2 := b64Char_ne_eq (i := b1 % 4 * 16 + b2 / 16) (by omega)
      have e3 := b64Char_ne_eq (i := b2 % 16 * 4 + b3 / 64) (by omega)
      have e4 := b64Char_ne_eq (i := b3 % 64) (by omega)
      have i1 := b64Index_b64Char (i := b1 / 4) (by omega)
      have i2 := b64Index_b64Char (i := b1 % 4 * 16 + b2 / 16) (by omega)
      have i3 := b64Index_b64Char (i := b2 % 16 * 4 + b3 / 64) (by omega)
      have i4 := b64Index_b64Char (i := b3 % 64) (by omega)
      simp only [encodeGroups, List.filter_cons, e1, e2, e3, e4, eq_self_iff_true,
        if_true, List.map_cons, i1, i2, i3, i4]

/-- Decoding inverts encoding on genuine byte lists. -/
theorem base64Decode_base64Encode (bs : List Nat) (hb : ∀ b ∈ bs, b < 256) :
    base64Decode (base64Encode bs) = bs := by
  unfold base64Decode base64Encode
  show decodeSextets (((encodeGroups bs).filter (fun c => c ≠ '=')).map b64Index) = bs
  induction bs using encodeGroups.induct with
  | case1 b1 b2 b3 rest ih =>
      rw [filter_map_encodeGroups _ hb]
      have h1 : b1 < 256 := hb b1 (by simp)
      have h2 : b2 < 256 := hb b2 (by simp)
      have h3 : b3 < 256 := hb b3 (by simp)
      simp only [decodeSextets]
      rw [ih (fun b hbmem => hb b (by simp [hbmem]))]
      congr 1
      · omega
      congr 1
      · omega
      congr 1
      · omega
  | case2 b1 b2 =>
      rw [filter_map_encodeGroups _ hb]
      have h1 : b1 < 256 := hb b1 (by simp)
      have h2 : b2 < 256 := hb b2 (by simp)
      simp only [decodeSextets]
      congr 1
      · omega
      congr 1
      · omega
  | case3 b1 =>
      rw [filter_map_encodeGroups _ hb]
      have h1 : b1 < 256 := hb b1 (by simp)
      simp only [decodeSextets]
      congr 1
      omega
  | case4 => rfl

/-! ## `XunfeiASR.process_audio` chunk framing (`app/core/speech.py`, lines 51-91)

The coroutine first sends a connect frame `{"data": {"status": 0, ...}}` with
no audio payload, then iterates `for i in range(0, len(audio_data), chunk_size)`
sending one chunk frame per slice `audio_data[i:i+chunk_size]`, with
`status = 1 if i + chunk_size < len(audio_data) else 2`.  A frame is modelled by
its status and optional base64 audio payload (the connect frame has none).
Since the slice starting at `i` has `len(audio_data) - i` remaining bytes,
`i + chunk_size < len(audio_data)` is equivalent to
`chunk_size < length of the remaining suffix`, which is how the recursion below
phrases it.  The recursion consumes `chunk_size` bytes per step
(`rest.drop (chunkSize - 1)` equals `(a :: rest).drop chunkSize` for positive
`chunkSize`; Python's `range` rejects a zero step).  Fuel bounds the recursion
structurally; one unit per byte is enough because each step consumes at least
one byte, and the fuel-exhaustion branch is unreachable (see
`chunkFramesGo_fuel`). -/

/-- One JSON frame sent on the recognition socket. -/
structure AsrFrame where
  status : Nat
  audio : Option String
deriving DecidableEq

/-- The connect frame: `status 0`, no audio payload. -/
def connectFrame : AsrFrame := ⟨0, none⟩

/-- The chunk-sending loop of `XunfeiASR.process_audio`, fuelled. -/
def chunkFramesGo (chunkSize : Nat) : Nat → List Nat → List AsrFrame
  | _, [] => []
  | 0, _ :: _ => []
  | fuel + 1, a :: rest =>
      { status := if chunkSize < (a :: rest).length then 1 else 2
        audio := some (base64Encode ((a :: rest).take chunkSize)) } ::
      chunkFramesGo chunkSize fuel (rest.drop (chunkSize - 1))

/-- The list of chunk frames `XunfeiASR.process_audio` sends for `audio`. -/
def chunkFrames (chunkSize : Nat) (audio : List Nat) : List AsrFrame :=
  chunkFramesGo chunkSize audio.length audio

/-- All frames sent by `XunfeiASR.process_audio`: the connect frame followed by
the chunk frames. -/
def processAudioFrames (chunkSize : Nat) (audio : List Nat) : List AsrFrame :=
  connectFrame :: chunkFrames chunkSize audio

/-- The fuel does not matter as long as it is at least the list length: the
fuel-exhaustion branch of `chunkFramesGo` is unreachable. -/
theorem chunkFramesGo_fuel (cs : Nat) :
    ∀ (fuel fuel' : Nat) (l : List Nat), l.length ≤ fuel → l.length ≤ fuel' →
      chunkFramesGo cs fuel l = chunkFramesGo cs fuel' l := by
  intro fuel
  induction fuel with
  | zero =>
      intro fuel' l hl _
      have : l = [] := List.length_eq_zero.mp (Nat.le_zero.mp hl)
      subst this
      cases fuel' <;> rfl
  | succ fuel ih =>
      intro fuel' l hl hl'
      match l with
      | [] => cases fuel' <;> rfl
      | a :: rest =>
          match fuel' with
          | fuel'' + 1 =>
              have hdrop : (rest.drop (cs - 1)).length ≤ rest.length := by
                simp [List.length_drop]
              simp only [chunkFramesGo, List.length_cons] at hl hl' ⊢
              rw [ih fuel'' (rest.drop (cs - 1)) (by omega) (by omega)]

/-- Unfolding `chunkFrames` on a nonempty list. -/
theorem chunkFrames_cons (cs : Nat) (a : Nat) (rest : List Nat) :
    chunkFrames cs (a :: rest) =
      { status := if cs < (a :: rest).length then 1 else 2
        audio := some (base64Encode ((a :: rest).take cs)) } ::
      chunkFrames cs (rest.drop (cs - 1)) := by
  have hdrop : (rest.drop (cs - 1)).length ≤ rest.length := by
    simp [List.length_drop]
  simp only [chunkFrames, List.length_cons, chunkFramesGo]
  rw [chunkFramesGo_fuel cs rest.length (rest.drop (cs - 1)).length
    (rest.drop (cs - 1)) (by omega) (by omega)]

/-- The statuses of the chunk frames are `1, …, 1, 2`. -/
theorem chunkFrames_statuses (cs : Nat) (hcs : 0 < cs) :
    ∀ (fuel : Nat) (audio : List Nat), audio.length ≤ fuel → audio ≠ [] →
      (chunkFrames cs audio).map AsrFrame.status =
        List.replicate ((chunkFrames cs audio).length - 1) 1 ++ [2] := by
  intro fuel
  induction fuel with
  | zero =>
      intro audio hl hne
      exact absurd (List.length_eq_zero.mp (Nat.le_zero.mp hl)) hne
  | succ fuel ih =>
      intro audio hl hne
      match audio with
      | [] => exact absurd rfl hne
      | a :: rest =>
          rw [chunkFrames_cons]
          have hdroplen : (rest.drop (cs - 1)).length = rest.length - (cs - 1) :=
            List.length_drop _ _
          have hl' : rest.length ≤ fuel := by
            simp only [List.length_cons] at hl
            omega
          by_cases hrest : rest.drop (cs - 1) = []
          · have hlen : rest.length ≤ cs - 1 := by
              rw [hrest] at hdroplen
              simp only [List.length_nil] at hdroplen
              omega
            have hstat : ¬ cs < (a :: rest).length := by
              simp only [List.length_cons]
              omega
            rw [hrest]
            have hnil : chunkFrames cs [] = [] := rfl
            rw [hnil, List.map_cons, List.map_nil, if_neg hstat]
            rfl
          · have hlen : cs - 1 < rest.length := by
              rcases Nat.lt_or_ge (cs - 1) rest.length with h | h
              · exact h
              · exact absurd (List.drop_eq_nil_of_le h) hrest
            have hstat : cs < (a :: rest).length := by
              simp only [List.length_cons]
              omega
            have hrec := ih (rest.drop (cs - 1)) (by omega) hrest
            have hpos : 0 < (chunkFrames cs (rest.drop (cs - 1))).length := by
              match hr : rest.drop (cs - 1) with
              | [] => exact absurd hr hrest
              | b :: tail => rw [chunkFrames_cons]; simp
            rw [List.map_cons, hrec, if_pos hstat]
            simp only [List.length_cons]
            rw [show (chunkFrames cs (rest.drop (cs - 1))).length + 1 - 1
                  = ((chunkFrames cs (rest.drop (cs - 1))).length - 1) + 1 by omega]
            rw [List.replicate_succ]
            simp

/-- Concatenating the decoded audio payloads of the chunk frames restores the
original byte sequence. -/
theorem chunkFrames_concat (cs : Nat) (hcs : 0 < cs) :
    ∀ (fuel : Nat) (audio : List Nat), audio.length ≤ fuel →
      (∀ b ∈ audio, b < 256) →
      ((chunkFrames cs audio).map
        (fun f => base64Decode (f.audio.getD ""))).flatten = audio := by
  intro fuel
  induction fuel with
  | zero =>
      intro audio hl _
      have : audio = [] := List.length_eq_zero.mp (Nat.le_zero.mp hl)
      subst this
      rfl
  | succ fuel ih =>
      intro audio hl hb
      match audio with
      | [] => rfl
      | a :: rest =>
          rw [chunkFrames_cons, List.map_cons, List.flatten_cons]
          have hdroplen : (rest.drop (cs - 1)).length = rest.length - (cs - 1) :=
            List.length_drop _ _
          have htake : ∀ b ∈ (a :: rest).take cs, b < 256 :=
            fun b hbmem => hb b (List.take_subset _ _ hbmem)
          have hdropmem : ∀ b ∈ rest.drop (cs - 1), b < 256 :=
            fun b hbmem => hb b (List.mem_cons_of_mem _ (List.drop_subset _ _ hbmem))
          have hlen : rest.length ≤ fuel := by
            simp only [List.length_cons] at hl
            omega
          rw [ih (rest.drop (cs - 1)) (by omega) hdropmem]
          show base64Decode (base64Encode ((a :: rest).take cs)) ++ _ = _
          rw [base64Decode_base64Encode _ htake]
          have hcseq : cs = (cs - 1) + 1 := by omega
          have hdropeq : rest.drop (cs - 1) = (a :: rest).drop cs := by
            conv_rhs => rw [hcseq, List.drop_succ_cons]
          rw [hdropeq, List.take_append_drop]

/-- Claim C4 (amended): for every nonempty byte sequence, positive chunk size
and bytes `< 256`, the chunk frames sent by `XunfeiASR.process_audio` carry
statuses `1, …, 1, 2`: no chunk frame carries status START (0) — status 0
appears exactly once among all sent frames, on the separate connect frame,
which carries no audio — exactly one chunk frame carries status END (2),
namely the last one (the chunk whose end reaches the total payload length),
every other chunk frame carries CONTINUE (1), and concatenating the
base64-decoded audio payloads of the chunk frames in send order reproduces the
original byte sequence exactly. -/
theorem process_audio_chunk_framing (cs : Nat) (hcs : 0 < cs) (audio : List Nat)
    (hne : audio ≠ []) (hb : ∀ b ∈ audio, b < 256) :
    (chunkFrames cs audio).map AsrFrame.status
        = List.replicate ((chunkFrames cs audio).length - 1) 1 ++ [2]
    ∧ ((chunkFrames cs audio).map AsrFrame.status).count 0 = 0
    ∧ ((chunkFrames cs audio).map AsrFrame.status).count 2 = 1
    ∧ ((processAudioFrames cs audio).map AsrFrame.status).count 0 = 1
    ∧ ((chunkFrames cs audio).map
        (fun f => base64Decode (f.audio.getD ""))).flatten = audio := by
  have hstat := chunkFrames_statuses cs hcs audio.length audio le_rfl hne
  have hconc := chunkFrames_concat cs hcs audio.length audio le_rfl hb
  refine ⟨hstat, ?_, ?_, ?_, hconc⟩
  · rw [hstat]
    simp [List.count_append, List.count_replicate, List.count_cons]
  · rw [hstat]
    simp [List.count_append, List.count_replicate, List.count_cons]
  · show ((connectFrame :: chunkFrames cs audio).map AsrFrame.status).count 0 = 1
    rw [List.map_cons, hstat]
    simp [connectFrame, List.count_cons, List.count_append, List.count_replicate]

set_option maxRecDepth 10000 in
/-- Witness for claim C4 at a concrete two-chunk input: 1300 bytes of value 65
with the fixed chunk size 1280 from the source. -/
theorem process_audio_chunk_framing_witness :
    (chunkFrames 1280 (List.replicate 1300 65)).map AsrFrame.status
        = List.replicate ((chunkFrames 1280 (List.replicate 1300 65)).length - 1) 1 ++ [2]
    ∧ ((chunkFrames 1280 (List.replicate 1300 65)).map AsrFrame.status).count 0 = 0
    ∧ ((chunkFrames 1280 (List.replicate 1300 65)).map AsrFrame.status).count 2 = 1
    ∧ ((processAudioFrames 1280 (List.replicate 1300 65)).map AsrFrame.status).count 0 = 1
    ∧ ((chunkFrames 1280 (List.replicate 1300 65)).map
        (fun f => base64Decode (f.audio.getD ""))).flatten = List.replicate 1300 65 :=
  process_audio_chunk_framing 1280 (by decide) (List.replicate 1300 65)
    (List.ne_nil_of_length_pos (by simp))
    (fun b hbm => by rw [List.eq_of_mem_replicate hbm]; omega)

set_option maxRecDepth 10000 in
/-- Counterexample to claim C4 as stated: for the 1300-byte audio above (two
chunks at the fixed chunk size 1280), the sequence of chunk frames has statuses
`[1, 2]` — no chunk frame carries status START (0), contradicting "exactly one
frame carries status START (0)". -/
theorem process_audio_no_start_chunk_counterexample :
    (chunkFrames 1280 (List.replicate 1300 65)).map AsrFrame.status = [1, 2]
    ∧ ¬ (((chunkFrames 1280 (List.replicate 1300 65)).map AsrFrame.status).count 0 = 1) := by
  decide

/-- Claim C5 (amended): for a zero-length audio byte sequence,
`XunfeiASR.process_audio` sends no chunk frame at all — the `for` loop over
`range(0, 0, chunk_size)` has no iterations — so the only frame sent is the
connect frame; in particular no frame with status 2 and empty payload is sent. -/
theorem process_audio_empty_no_chunk_frames (cs : Nat) :
    chunkFrames cs [] = [] ∧ processAudioFrames cs [] = [connectFrame] :=
  ⟨rfl, rfl⟩

/-- Counterexample to claim C5 as stated: for empty audio the code sends zero
chunk frames, not exactly one frame with status 2 and an empty payload. -/
theorem process_audio_empty_counterexample :
    (chunkFrames 1280 []).length = 0
    ∧ ¬ ((chunkFrames 1280 []).length = 1
          ∧ (chunkFrames 1280 []).map AsrFrame.status = [2]) := by
  decide

/-! ## SHA-256, HMAC and `XunfeiASR.create_url` (`app/core/speech.py`, lines 31-49)

`create_url` builds the three-line `signature_origin` string, signs it with
`hmac.new(secret, origin, sha256).digest()`, base64-encodes the digest, embeds
it into the `authorization_origin` template and base64-encodes that string too
(lines 34-41); it then attempts to assemble the query URL with
`urllib.parse.urlencode(v)` on line 48 — but the module only runs
`from urllib.parse import urlparse`, which never binds the name `urllib`, so
that call raises `NameError` on every invocation and the function never returns
a URL.  SHA-256 and HMAC are implemented below exactly per FIPS 180-4 /
RFC 2104, over byte lists with 32-bit words as `Nat` masked to 32 bits, and the
raise is modelled by an `Except` error carrying the unbound name. -/

/-- Truncate to a 32-bit word. -/
def w32 (n : Nat) : Nat := n % 4294967296

/-- Right rotation of a 32-bit word. -/
def rotr (n x : Nat) : Nat := ((x >>> n) ||| (x <<< (32 - n))) &&& 4294967295

/-- SHA-256 initial hash value. -/
def shaH0 : List Nat :=
  [1779033703, 3144134277, 1013904242, 2773480762,
   1359893119, 2600822924, 528734635, 1541459225]

/-- SHA-256 round constants. -/
def shaK : List Nat :=
  [1116352408, 1899447441, 3049323471, 3921009573, 961987163,
   1508970993, 2453635748, 2870763221, 3624381080, 310598401,
   607225278, 1426881987, 1925078388, 2162078206, 2614888103,
   3248222580, 3835390401, 4022224774, 264347078, 604807628,
   770255983, 1249150122, 1555081692, 1996064986, 2554220882,
   2821834349, 2952996808, 3210313671, 3336571891, 3584528711,
   113926993, 338241895, 666307205, 773529912, 1294757372,
   1396182291, 1695183700, 1986661051, 2177026350, 2456956037,
   2730485921, 2820302411, 3259730800, 3345764771, 3516065817,
   3600352804, 4094571909, 275423344, 430227734, 506948616,
   659060556, 883997877, 958139571, 1322822218, 1537002063,
   1747873779, 1955562222, 2024104815, 2227730452, 2361852424,
   2428436474, 2756734187, 3204031479, 3329325298]

/-- Big-endian 32-bit words from bytes (input length a multiple of 4). -/
def wordsBE : List Nat → List Nat
  | b1 :: b2 :: b3 :: b4 :: rest =>
      (b1 * 16777216 + b2 * 65536 + b3 * 256 + b4) :: wordsBE rest
  | _ => []

/-- Big-endian bytes of a 32-bit word. -/
def wordBytesBE (w : Nat) : List Nat :=
  [(w >>> 24) &&& 255, (w >>> 16) &&& 255, (w >>> 8) &&& 255, w &&& 255]

/-- Big-endian bytes of a 64-bit length field. -/
def be64 (n : Nat) : List Nat :=
  [(n >>> 56) &&& 255, (n >>> 48) &&& 255, (n >>> 40) &&& 255, (n >>> 32) &&& 255,
   (n >>> 24) &&& 255, (n >>> 16) &&& 255, (n >>> 8) &&& 255, n &&& 255]

/-- SHA-256 padding for a message of `len` bytes. -/
def shaPad (len : Nat) : List Nat :=
  0x80 :: List.replicate ((119 - len % 64) % 64) 0 ++ be64 (8 * len)

/-- Message-schedule extension: `acc` holds the schedule so far in reverse
(most recent word first); each step prepends one new word. -/
def extendSchedule : Nat → List Nat → List Nat
  | 0, acc => acc
  | n + 1, acc =>
      let s0 := rotr 7 (acc.getD 14 0) ^^^ rotr 18 (acc.getD 14 0) ^^^ (acc.getD 14 0 >>> 3)
      let s1 := rotr 17 (acc.getD 1 0) ^^^ rotr 19 (acc.getD 1 0) ^^^ (acc.getD 1 0 >>> 10)
      extendSchedule n (w32 (s1 + acc.getD 6 0 + s0 + acc.getD 15 0) :: acc)

/-- The 64-entry message schedule of one 64-byte block. -/
def schedule (block : List Nat) : List Nat :=
  (extendSchedule 48 (wordsBE block).reverse).reverse

/-- One compression round per `(K[t], W[t])` pair. -/
def compressWords : List (Nat × Nat) → List Nat → List Nat
  | [], st => st
  | (k, w) :: rest, st =>
      let a := st.getD 0 0
      let b := st.getD 1 0
      let c := st.getD 2 0
      let d := st.getD 3 0
      let e := st.getD 4 0
      let f := st.getD 5 0
      let g := st.getD 6 0
      let h := st.getD 7 0
      let s1 := rotr 6 e ^^^ rotr 11 e ^^^ rotr 25 e
      let ch := (e &&& f) ^^^ ((e ^^^ 4294967295) &&& g)
      let temp1 := w32 (h + s1 + ch + k + w)
      let s0 := rotr 2 a ^^^ rotr 13 a ^^^ rotr 22 a
      let maj := (a &&& b) ^^^ (a &&& c) ^^^ (b &&& c)
      let temp2 := w32 (s0 + maj)
      compressWords rest
        [w32 (temp1 + temp2), a, b, c, w32 (d + temp1), e, f, g]

/-- Process one 64-byte block. -/
def sha256Block (st block : List Nat) : List Nat :=
  List.zipWith (fun x y => w32 (x + y)) st (compressWords (shaK.zip (schedule block)) st)

/-- Split into 64-byte blocks (fuelled; one unit of fuel per block suffices). -/
def blocksGo : Nat → List Nat → List (List Nat)
  | _, [] => []
  | 0, _ :: _ => []
  | fuel + 1, l => l.take 64 :: blocksGo fuel (l.drop 64)

/-- SHA-256 digest (32 bytes) of a byte list. -/
def sha256 (msg : List Nat) : List Nat :=
  let padded := msg ++ shaPad msg.length
  ((blocksGo padded.length padded).foldl sha256Block shaH0).map wordBytesBE |>.flatten

/-- HMAC-SHA256 per RFC 2104 (block size 64), as `hmac.new(key, msg, sha256)`. -/
def hmacSha256 (key msg : List Nat) : List Nat :=
  let k0 := if 64 < key.length then sha256 key else key
  let kpad := k0 ++ List.replicate (64 - k0.length) 0
  sha256 ((kpad.map (fun b => b ^^^ 0x5c)) ++
    sha256 ((kpad.map (fun b => b ^^^ 0x36)) ++ msg))

/-- UTF-8 bytes of one character (model of `str.encode('utf-8')`). -/
def utf8Char (c : Char) : List Nat :=
  let n := c.toNat
  if n < 0x80 then [n]
  else if n < 0x800 then
    [0xC0 ||| (n >>> 6), 0x80 ||| (n &&& 0x3F)]
  else if n < 0x10000 then
    [0xE0 ||| (n >>> 12), 0x80 ||| ((n >>> 6) &&& 0x3F), 0x80 ||| (n &&& 0x3F)]
  else
    [0xF0 ||| (n >>> 18), 0x80 ||| ((n >>> 12) &&& 0x3F),
     0x80 ||| ((n >>> 6) &&& 0x3F), 0x80 ||| (n &&& 0x3F)]

/-- UTF-8 bytes of a string. -/
def utf8Encode (s : String) : List Nat := (s.data.map utf8Char).flatten

set_option maxRecDepth 100000 in
/-- SHA-256 test vector (FIPS 180-4, message "abc"), validating the embedding
of the hash against its published value. -/
theorem sha256_abc_vector :
    sha256 (utf8Encode "abc") =
      [0xba, 0x78, 0x16, 0xbf, 0x8f, 0x01, 0xcf, 0xea,
       0x41, 0x41, 0x40, 0xde, 0x5d, 0xae, 0x22, 0x23,
       0xb0, 0x03, 0x61, 0xa3, 0x96, 0x17, 0x7a, 0x9c,
       0xb4, 0x10, 0xff, 0x61, 0xf2, 0x00, 0x15, 0xad] := by
  decide

set_option maxRecDepth 400000 in
/-- HMAC-SHA256 test vector (key "key", message "The quick brown fox jumps
over the lazy dog"), validating the embedding of `hmac.new(..., sha256)`. -/
theorem hmac_sha256_vector :
    hmacSha256 (utf8Encode "key")
        (utf8Encode "The quick brown fox jumps over the lazy dog") =
      [0xf7, 0xbc, 0x83, 0xf4, 0x30, 0x53, 0x84, 0x24,
       0xb1, 0x32, 0x98, 0xe6, 0xaa, 0x6f, 0xb1, 0x43,
       0xef, 0x4d, 0x59, 0xa1, 0x49, 0x46, 0x17, 0x59,
       0x97, 0x47, 0x9d, 0xbc, 0x2d, 0x1a, 0x3c, 0xd8] := by
  decide

/-- The canonical three-line string `create_url` signs:
`"host: {netloc}\ndate: {date}\nGET {path} HTTP/1.1"`. -/
def signatureOrigin (host date path : String) : String :=
  "host: " ++ host ++ "\ndate: " ++ date ++ "\nGET " ++ path ++ " HTTP/1.1"

/-- Model of `base64.b64encode(hmac.new(api_secret, signature_origin, sha256).digest())`
decoded to text. -/
def signatureShaBase64 (apiSecret host date path : String) : String :=
  base64Encode (hmacSha256 (utf8Encode apiSecret)
    (utf8Encode (signatureOrigin host date path)))

/-- The `authorization_origin` template of `create_url`. -/
def authorizationOrigin (apiKey sig : String) : String :=
  "api_key=\"" ++ apiKey ++ "\", algorithm=\"hmac-sha256\", " ++
  "headers=\"host date request-line\", signature=\"" ++ sig ++ "\""

/-- The doubly-encoded `authorization` query value of `create_url`. -/
def authorizationValue (apiKey apiSecret host date path : String) : String :=
  base64Encode (utf8Encode
    (authorizationOrigin apiKey (signatureShaBase64 apiSecret host date path)))

/-- A raised Python exception, identified by kind and message. -/
inductive PyError where
  | nameError (name : String)
deriving DecidableEq

/-- Model of `XunfeiASR.create_url` including its error path.  Lines 34-47
execute: the date is formatted (the wall clock is fixed here as the `date`
parameter), the signature and the doubly-encoded `authorization` local are
computed, and the query dictionary `v` is built.  Line 48 then evaluates
`urllib.parse.urlencode(v)`; the module only ever ran
`from urllib.parse import urlparse`, which binds `urlparse` but not `urllib`,
so the lookup of the bare name `urllib` raises `NameError` and the function
never assembles or returns a URL. -/
def createUrl (host path apiKey apiSecret date : String) :
    Except PyError String :=
  let authorization := authorizationValue apiKey apiSecret host date path
  let _v := [("authorization", authorization), ("date", date), ("host", host)]
  .error (.nameError "urllib")

/-- Counterexample to claim C9 as stated: at the source's own connection
target (`ws://rtasr.xfyun.cn/v1/ws`) with fixed credentials and date,
`create_url` produces no output URL at all — it raises `NameError` on the
unbound name `urllib` — so two runs cannot "produce identical output URLs":
there are no output URLs. -/
theorem create_url_no_output_counterexample :
    createUrl "rtasr.xfyun.cn" "/v1/ws" "apikey" "secret" "Mon, 01 Jan 2024 00:00:00 GMT"
      = .error (.nameError "urllib")
    ∧ (createUrl "rtasr.xfyun.cn" "/v1/ws" "apikey" "secret"
        "Mon, 01 Jan 2024 00:00:00 GMT").toOption = none :=
  ⟨rfl, rfl⟩

/-- Claim C9 (amended): for fixed `(host, path, secret, timestamp)` (and API
key), the signature computation of `XunfeiASR.create_url` is deterministic —
two runs on identical inputs produce the byte-identical base64 authorization
signature, and the two runs behave identically thereafter as well; but that
identical behaviour is raising `NameError` on the unbound name `urllib` at the
`urlencode` call, never returning an output URL.  The embedding makes the run
a pure function of exactly these inputs (the wall clock, its only other input
in the source, is fixed as `date`), so two runs are two evaluations of the
same application. -/
theorem create_url_signature_deterministic (host path apiKey apiSecret date : String)
    (s1 s2 : String) (r1 r2 : Except PyError String)
    (hs1 : s1 = signatureShaBase64 apiSecret host date path)
    (hs2 : s2 = signatureShaBase64 apiSecret host date path)
    (hr1 : r1 = createUrl host path apiKey apiSecret date)
    (hr2 : r2 = createUrl host path apiKey apiSecret date) :
    s1 = s2
    ∧ r1 = r2
    ∧ r1 = .error (.nameError "urllib")
    ∧ r1.toOption = none :=
  ⟨hs1.trans hs2.symm, hr1.trans hr2.symm,
   hr1.trans rfl, by rw [hr1]; rfl⟩

/-- Witness for the amended claim C9 at the concrete connection target of the
source with sample credentials and date. -/
theorem create_url_signature_deterministic_witness :
    signatureShaBase64 "secret" "rtasr.xfyun.cn" "Mon, 01 Jan 2024 00:00:00 GMT" "/v1/ws"
        = signatureShaBase64 "secret" "rtasr.xfyun.cn" "Mon, 01 Jan 2024 00:00:00 GMT" "/v1/ws"
    ∧ createUrl "rtasr.xfyun.cn" "/v1/ws" "apikey" "secret" "Mon, 01 Jan 2024 00:00:00 GMT"
        = createUrl "rtasr.xfyun.cn" "/v1/ws" "apikey" "secret" "Mon, 01 Jan 2024 00:00:00 GMT"
    ∧ createUrl "rtasr.xfyun.cn" "/v1/ws" "apikey" "secret" "Mon, 01 Jan 2024 00:00:00 GMT"
        = .error (.nameError "urllib")
    ∧ (createUrl "rtasr.xfyun.cn" "/v1/ws" "apikey" "secret"
        "Mon, 01 Jan 2024 00:00:00 GMT").toOption = none :=
  create_url_signature_deterministic "rtasr.xfyun.cn" "/v1/ws" "apikey" "secret"
    "Mon, 01 Jan 2024 00:00:00 GMT" _ _ _ _ rfl rfl rfl rfl

/-! ## Data model (`app/core/models.py`) and session semantics

Rows carry the columns the pipeline reads or writes; timestamps are ticks of a
monotone clock (`datetime.utcnow`), intensities are exact rationals (the Python
floats in play are small-integer quotients).  A SQLAlchemy session is a pair of
database states: `committed` (what a reader outside the session observes) and
`current` (committed state plus pending adds and attribute mutations).
`commit()` publishes `current`; the `except` handlers in the source always call
`rollback()`, which restores `current` from `committed`. -/

/-- Row of `conversations`. -/
structure Conv where
  id : Nat
  userId : Nat
  startTime : Nat
  endTime : Option Nat
deriving DecidableEq

/-- Row of `messages`. -/
structure Msg where
  conversationId : Nat
  content : String
  role : String
  emotion : Option String
  timestamp : Nat
deriving DecidableEq

/-- Row of `emotion_logs`. -/
structure ELog where
  userId : Nat
  emotion : String
  intensity : ℚ
  context : Option String
  timestamp : Nat
deriving DecidableEq

/-- Row of `work_status`. -/
structure WorkStatusRow where
  status : String
  startTime : Nat
  endTime : Option Nat
  description : Option String
  currentTaskId : Option Nat
deriving DecidableEq

/-- One database state; `nextConvId` models the autoincrement counter behind
`db.refresh(active_conversation)`. -/
structure DB where
  convs : List Conv
  msgs : List Msg
  logs : List ELog
  workStatuses : List WorkStatusRow
  nextConvId : Nat
deriving DecidableEq

/-- A SQLAlchemy session: committed state plus working state. -/
structure Session where
  committed : DB
  current : DB
deriving DecidableEq

/-- A successful `session.commit()`. -/
def sessCommit (s : Session) : Session := ⟨s.current, s.current⟩

/-- A `session.rollback()` after a failed commit. -/
def sessRollback (s : Session) : Session := ⟨s.committed, s.committed⟩

/-- Stage a `session.add(message)`. -/
def sessAddMsg (s : Session) (m : Msg) : Session :=
  { s with current := { s.current with msgs := s.current.msgs ++ [m] } }

/-! ## Capability tools (`app/agent/tools.py`) -/

/-- An affect result `{"emotion": ..., "intensity": ...}`. -/
structure AffectResult where
  emotion : String
  intensity : ℚ
deriving DecidableEq

/-- The default affect `{"emotion": "neutral", "intensity": 0.5}` used both by
`EmotionAnalysisTool._run` on an unlabeled window and by `process_message` when
the tool is absent. -/
def defaultAffect : AffectResult := ⟨"neutral", 1/2⟩

/-- The label `max(set(emotions), key=emotions.count)` picks: a label of
maximal multiplicity.  Python iterates the set in unspecified hash order; the
model fixes first-occurrence order (`dedup`), and no claim below depends on the
tie-break. -/
def majorityLabel (l : List String) : String :=
  ((l.dedup).argmax (fun x => l.count x)).getD "neutral"

/-- The emotion labels carried by the five most recent messages of the
conversation (`order_by(timestamp.desc()).limit(5)`; rows are stored in
timestamp order, so these are the last five). -/
def recentLabels (db : DB) (conversationId : Nat) : List String :=
  (((db.msgs.filter (fun m => m.conversationId == conversationId)).reverse).take 5).filterMap
    Msg.emotion

/-- Model of `EmotionAnalysisTool._run`: either the default, or the majority
label over the recent window with intensity `distinct / total`. -/
def emotionAnalysisRun (db : DB) (conversationId : Nat) : AffectResult :=
  let emotions := recentLabels db conversationId
  if emotions.isEmpty then defaultAffect
  else ⟨majorityLabel emotions, (emotions.dedup.length : ℚ) / (emotions.length : ℚ)⟩

/-- Does `needle` occur at the start of `hay` (character lists)? -/
def charsStart : List Char → List Char → Bool
  | [], _ => true
  | _ :: _, [] => false
  | a :: as, b :: bs => a == b && charsStart as bs

/-- Does `needle` occur anywhere inside `hay` (character lists)? -/
def charsContain (needle : List Char) : List Char → Bool
  | [] => needle.isEmpty
  | b :: bs => charsStart needle (b :: bs) || charsContain needle bs

/-- Python's substring test `needle in hay`. -/
def strContains (hay needle : String) : Bool := charsContain needle.data hay.data

/-- The blocklist of `SafetyCheckTool._run`. -/
def unsafeWords : List String :=
  ["机密", "内幕", "隐私", "竞争对手",
   "违规", "违法", "歧视", "骚扰",
   "个人信息", "密码", "账号", "薪资",
   "辞职", "裁员", "投诉", "举报"]

/-- Model of `SafetyCheckTool._run`: the `is_safe` field — false exactly when
some blocklisted word occurs in the response. -/
def safetyCheckRun (response : String) : Bool :=
  !(unsafeWords.any (fun w => strContains response w))

/-- Model of `EmotionLogTool._run`: stage the log row, then commit — note this
commits the whole session, including any rows staged earlier by the caller.  On
commit failure it rolls back and returns `false` instead of raising. -/
def emotionLogRun (s : Session) (userId : Nat) (emotion : String) (intensity : ℚ)
    (context : Option String) (now : Nat) (commitOk : Bool) : Bool × Session :=
  let s' := { s with current :=
    { s.current with logs := s.current.logs ++ [⟨userId, emotion, intensity, context, now⟩] } }
  if commitOk then (true, sessCommit s') else (false, sessRollback s')

/-- Update the row fetched by primary key: set `end_time` on the first
conversation row with the given id. -/
def setEndTime : List Conv → Nat → Nat → List Conv
  | [], _, _ => []
  | c :: rest, cid, now =>
      if c.id == cid then { c with endTime := some now } :: rest
      else c :: setEndTime rest cid now

/-- Set `end_time` on the first open `work_status` row, as
`WorkStatusTool._run` does to the row returned by
`query(WorkStatus).filter(end_time.is_(None)).first()`. -/
def closeFirstOpenWS : List WorkStatusRow → Nat → List WorkStatusRow
  | [], _ => []
  | w :: rest, now =>
      if w.endTime == none then { w with endTime := some now } :: rest
      else w :: closeFirstOpenWS rest now

/-- Model of `WorkStatusTool._run`: close the open status row if any, stage a
new open row, commit; the Bool is the `success` field (false on commit
failure, after rollback). -/
def workStatusRun (s : Session) (status : String) (description : Option String)
    (taskId : Option Nat) (now : Nat) (commitOk : Bool) : Bool × Session :=
  let s' := { s with current :=
    { s.current with workStatuses :=
        closeFirstOpenWS s.current.workStatuses now ++ [⟨status, now, none, description, taskId⟩] } }
  if commitOk then (true, sessCommit s') else (false, sessRollback s')

/-- Model of the `GET /work-status` query (`app/web/server.py`, lines 357-378):
the first `work_status` row with null `end_time`. -/
def getWorkStatus (db : DB) : Option WorkStatusRow :=
  db.workStatuses.find? (fun w => w.endTime == none)

/-! ## CompanionAgent (`app/agent/companion_agent.py`) -/

/-- Model of the registry `tools_by_name = {tool.name: tool for tool in list}`
together with `CompanionAgent.get_tool`: dictionary comprehension keeps the
last binding of a duplicated name, `dict.get` returns `None` (here `none`) for
an absent name and never raises. -/
def getTool {α : Type} (ts : List (String × α)) (name : String) : Option α :=
  ((ts.reverse).find? (fun t => t.1 == name)).map Prod.snd

/-- Environment of one `process_message` call: which capabilities the registry
resolves (`get_tool` results), the outcome of the external generation call
(`none` models an exception in `agent_executor.arun`, which the source replaces
by its fixed apology), and the fate of each commit the turn can attempt. -/
structure PipelineEnv where
  emotionAvail : Bool
  safetyAvail : Bool
  logAvail : Bool
  llmOutcome : Option String
  convCommitOk : Bool
  logCommitOk : Bool
  finalCommitOk : Bool
deriving DecidableEq

/-- The return value `{"content": ..., "emotion": ...}` of `process_message`. -/
structure AgentResponse where
  content : String
  emotion : AffectResult
deriving DecidableEq

/-- The fixed apology `_generate_response` substitutes when the generation call
raises. -/
def generationApology : String := "抱歉，我在尝试处理您的请求时遇到了一些麻烦。"

/-- The fixed safe-response list of `_generate_safe_response`. -/
def safeResponses : List String :=
  ["这个问题可能涉及一些敏感信息，建议您直接咨询相关部门。",
   "作为数字员工，我需要遵守数据安全规定，建议您通过正式渠道获取这些信息。",
   "这个话题可能需要更专业的建议，建议您咨询主管或HR。",
   "让我们换个角度思考这个问题，关注更具建设性的方面。"]

/-- Model of `_generate_safe_response`: deterministically the first element. -/
def generateSafeResponse : String := safeResponses.getD 0 ""

/-- The full replacement text substituted on a failed safety check. -/
def redirectText : String := "对不起，让我换个方式说。" ++ generateSafeResponse

/-- The affect `process_message` infers: the tool result when the capability
resolves, the default otherwise. -/
def inferAffect (avail : Bool) (db : DB) (conversationId : Nat) : AffectResult :=
  if avail then emotionAnalysisRun db conversationId else defaultAffect

/-- The candidate text `_generate_response` hands to the safety gate. -/
def generatedContent (env : PipelineEnv) : String :=
  env.llmOutcome.getD generationApology

/-- The text `process_message` persists and returns after the safety gate. -/
def finalContent (env : PipelineEnv) : String :=
  if (if env.safetyAvail then safetyCheckRun (generatedContent env) else true) then
    generatedContent env
  else redirectText

/-- Model of `CompanionAgent._get_or_create_conversation`: return the subject's
open conversation, or stage a new one and commit at once; on commit failure
roll back and re-raise (the error value carries the post-rollback session). -/
def getOrCreateConversation (s : Session) (userId now : Nat) (commitOk : Bool) :
    Except Session (Conv × Session) :=
  match s.current.convs.find? (fun c => c.userId == userId && c.endTime == none) with
  | some conv => .ok (conv, s)
  | none =>
      let conv : Conv := ⟨s.current.nextConvId, userId, now, none⟩
      let s' := { s with current := { s.current with
        convs := s.current.convs ++ [conv],
        nextConvId := s.current.nextConvId + 1 } }
      if commitOk then .ok (conv, sessCommit s') else .error (sessRollback s')

/-- Model of `CompanionAgent.process_message`.  Stage order as in the source:
resolve the conversation (the only re-raising stage); infer affect (default on
absent tool); stage the user message tagged with the affect label; obtain the
candidate text (apology on generation failure); safety-gate it (default safe on
absent tool, redirect text on an unsafe verdict); stage the assistant message;
run the affect-log tool (which itself commits or rolls back the session) when
it resolves; finally try to commit, swallowing a failure after rollback; return
the response either way. -/
def processMessage (env : PipelineEnv) (s : Session) (userId : Nat)
    (message : String) (now : Nat) : Except Session (AgentResponse × Session) :=
  match getOrCreateConversation s userId now env.convCommitOk with
  | .error sErr => .error sErr
  | .ok (conversation, s1) =>
      let emotionResult := inferAffect env.emotionAvail s1.current conversation.id
      let s2 := sessAddMsg s1 ⟨conversation.id, message, "user", some emotionResult.emotion, now⟩
      let content := finalContent env
      let s3 := sessAddMsg s2 ⟨conversation.id, content, "assistant", none, now⟩
      let s4 := if env.logAvail then
          (emotionLogRun s3 userId emotionResult.emotion emotionResult.intensity
            (some message) now env.logCommitOk).2
        else s3
      let s5 := if env.finalCommitOk then sessCommit s4 else sessRollback s4
      .ok (⟨content, emotionResult⟩, s5)

/-- Model of `CompanionAgent.end_conversation`: fetch by primary key; if the
row exists and is still open, set its `end_time` and commit (rolling back on
commit failure); otherwise leave the session untouched. -/
def endConversation (s : Session) (conversationId now : Nat) (commitOk : Bool) : Session :=
  match s.current.convs.find? (fun c => c.id == conversationId) with
  | none => s
  | some conv =>
      if conv.endTime = none then
        let s' := { s with current := { s.current with
          convs := setEndTime s.current.convs conversationId now } }
        if commitOk then sessCommit s' else sessRollback s'
      else s

/-- The session `process_message` ends with, given the session `s1` and
conversation the resolution stage produced (the tail of `processMessage` after
its match, shared by several proofs below). -/
def pmSession (env : PipelineEnv) (s1 : Session) (conv : Conv) (userId : Nat)
    (message : String) (now : Nat) : Session :=
  let emotionResult := inferAffect env.emotionAvail s1.current conv.id
  let s2 := sessAddMsg s1 ⟨conv.id, message, "user", some emotionResult.emotion, now⟩
  let s3 := sessAddMsg s2 ⟨conv.id, finalContent env, "assistant", none, now⟩
  let s4 := if env.logAvail then
      (emotionLogRun s3 userId emotionResult.emotion emotionResult.intensity
        (some message) now env.logCommitOk).2
    else s3
  if env.finalCommitOk then sessCommit s4 else sessRollback s4

theorem processMessage_ok (env : PipelineEnv) (s : Session) (userId now : Nat)
    (message : String) (conv : Conv) (s1 : Session)
    (hg : getOrCreateConversation s userId now env.convCommitOk = .ok (conv, s1)) :
    processMessage env s userId message now =
      .ok (⟨finalContent env, inferAffect env.emotionAvail s1.current conv.id⟩,
        pmSession env s1 conv userId message now) := by
  unfold processMessage pmSession
  rw [hg]

theorem processMessage_error (env : PipelineEnv) (s : Session) (userId now : Nat)
    (message : String) (sErr : Session)
    (hg : getOrCreateConversation s userId now env.convCommitOk = .error sErr) :
    processMessage env s userId message now = .error sErr := by
  unfold processMessage
  rw [hg]

/-- When both the affect-log stage (if it runs) and the final stage commit, the
turn's two message rows are durably appended. -/
theorem pmSession_committed_msgs (env : PipelineEnv) (s1 : Session) (conv : Conv)
    (userId now : Nat) (message : String)
    (hfinal : env.finalCommitOk = true)
    (hlog : env.logAvail = false ∨ env.logCommitOk = true) :
    (pmSession env s1 conv userId message now).committed.msgs
      = s1.current.msgs ++
        [⟨conv.id, message, "user",
            some (inferAffect env.emotionAvail s1.current conv.id).emotion, now⟩,
         ⟨conv.id, finalContent env, "assistant", none, now⟩] := by
  unfold pmSession
  rcases hlog with hl | hl
  · simp [hl, hfinal, sessCommit, sessAddMsg]
  · by_cases hla : env.logAvail
    · simp [hla, hl, hfinal, emotionLogRun, sessCommit, sessAddMsg]
    · simp [hla, hfinal, sessCommit, sessAddMsg]

/-! ## Claim C1: safety gate and fallback substitution -/

/-- The fixed redirect text passes the blocklist scan itself. -/
theorem redirect_is_safe : safetyCheckRun redirectText = true := by decide

/-- Any text containing the blocklisted substring is judged unsafe. -/
theorem contains_mima_unsafe (t : String) (h : strContains t "密码" = true) :
    safetyCheckRun t = false := by
  unfold safetyCheckRun
  simp only [Bool.not_eq_false']
  rw [List.any_eq_true]
  exact ⟨"密码", by decide, h⟩

/-- Claim C1: in every turn whose safety check reports unsafe for the generated
candidate (in particular any candidate containing "密码" — final conjunct), the
assistant turn persisted and returned carries exactly the apology prefix
followed by the first element of the fixed safe-response list, and that text
never equals the original candidate.  Persistence presupposes the turn's
commits succeed, so the conversation commit, the affect-log commit (or an
absent affect-log tool) and the final commit are assumed to succeed. -/
theorem process_message_unsafe_redirect
    (env : PipelineEnv) (s : Session) (userId now : Nat) (message candidate : String)
    (hconv : env.convCommitOk = true)
    (hsafe : env.safetyAvail = true)
    (hllm : env.llmOutcome = some candidate)
    (hflag : safetyCheckRun candidate = false)
    (hlog : env.logAvail = false ∨ env.logCommitOk = true)
    (hfinal : env.finalCommitOk = true) :
    (∃ (affect : AffectResult) (s' : Session) (m : Msg),
      processMessage env s userId message now = .ok (⟨redirectText, affect⟩, s')
      ∧ s'.committed.msgs.getLast? = some m
      ∧ m.content = redirectText ∧ m.role = "assistant")
    ∧ redirectText ≠ candidate
    ∧ (∀ t : String, strContains t "密码" = true → safetyCheckRun t = false) := by
  have hfc : finalContent env = redirectText := by
    unfold finalContent generatedContent
    rw [hllm, hsafe]
    simp [hflag]
  have hne : redirectText ≠ candidate := by
    intro heq
    have h1 := redirect_is_safe
    rw [heq, hflag] at h1
    exact Bool.noConfusion h1
  refine ⟨?_, hne, contains_mima_unsafe⟩
  obtain ⟨conv, s1, hg⟩ :
      ∃ conv s1, getOrCreateConversation s userId now env.convCommitOk = .ok (conv, s1) := by
    rcases hfind : s.current.convs.find? (fun c => c.userId == userId && c.endTime == none)
      with _ | conv
    · refine ⟨⟨s.current.nextConvId, userId, now, none⟩,
        sessCommit { s with current := { s.current with
          convs := s.current.convs ++ [⟨s.current.nextConvId, userId, now, none⟩],
          nextConvId := s.current.nextConvId + 1 } }, ?_⟩
      unfold getOrCreateConversation
      rw [hfind, hconv]
      simp
    · exact ⟨conv, s, by unfold getOrCreateConversation; rw [hfind]⟩
  have hpm := processMessage_ok env s userId now message conv s1 hg
  rw [hfc] at hpm
  have hmsgs := pmSession_committed_msgs env s1 conv userId now message hfinal hlog
  rw [hfc] at hmsgs
  refine ⟨_, _, ⟨conv.id, redirectText, "assistant", none, now⟩, hpm, ?_, rfl, rfl⟩
  rw [hmsgs]
  rw [show s1.current.msgs ++
        [⟨conv.id, message, "user",
            some (inferAffect env.emotionAvail s1.current conv.id).emotion, now⟩,
          (⟨conv.id, redirectText, "assistant", none, now⟩ : Msg)]
      = (s1.current.msgs ++
          [⟨conv.id, message, "user",
              some (inferAffect env.emotionAvail s1.current conv.id).emotion, now⟩]) ++
        [⟨conv.id, redirectText, "assistant", none, now⟩] by simp]
  exact List.getLast?_concat _

/-- Concrete fixtures for witnesses and counterexamples: an empty store and a
clean session over it. -/
def demoDB : DB := ⟨[], [], [], [], 1⟩

/-- A clean session over the empty store. -/
def demoSession : Session := ⟨demoDB, demoDB⟩

/-- Environment whose generation call yields a blocklisted candidate. -/
def demoEnvUnsafe : PipelineEnv := ⟨true, true, true, some "会议室的密码是1234", true, true, true⟩

/-- Environment whose final commit fails while everything else succeeds. -/
def demoEnvCommitFail : PipelineEnv := ⟨true, true, true, some "今天天气不错", true, true, false⟩

/-- Witness for claim C1 at the empty store with a candidate containing
"密码". -/
theorem process_message_unsafe_redirect_witness :
    (∃ (affect : AffectResult) (s' : Session) (m : Msg),
      processMessage demoEnvUnsafe demoSession 7 "帮我查一下" 100 = .ok (⟨redirectText, affect⟩, s')
      ∧ s'.committed.msgs.getLast? = some m
      ∧ m.content = redirectText ∧ m.role = "assistant")
    ∧ redirectText ≠ "会议室的密码是1234"
    ∧ (∀ t : String, strContains t "密码" = true → safetyCheckRun t = false) :=
  process_message_unsafe_redirect demoEnvUnsafe demoSession 7 100 "帮我查一下"
    "会议室的密码是1234" rfl rfl rfl (by decide) (Or.inr rfl) rfl

/-! ## Claim C2: behaviour on final-commit failure -/

/-- Is the pipeline outcome a normal return (no exception reached the
caller)? -/
def pmIsOk (r : Except Session (AgentResponse × Session)) : Bool :=
  match r with
  | .ok _ => true
  | .error _ => false

/-- Number of message rows observable in the committed store afterwards. -/
def pmCommittedMsgCount (r : Except Session (AgentResponse × Session)) : Nat :=
  match r with
  | .ok (_, s') => s'.committed.msgs.length
  | .error sErr => sErr.committed.msgs.length

/-- Counterexample to claim C2 as stated: starting from the empty store with
every stage succeeding except the final commit, `process_message` returns
normally — the commit error is caught, logged and not surfaced to the caller —
and both Turn rows of the exchange are still observable afterwards, because
`EmotionLogTool._run` had already committed the whole session before the final
commit ran.  Nothing rolled back as one unit and no error reached the
caller. -/
theorem process_message_commit_failure_counterexample :
    pmIsOk (processMessage demoEnvCommitFail demoSession 7 "你好" 100) = true
    ∧ pmCommittedMsgCount (processMessage demoEnvCommitFail demoSession 7 "你好" 100) = 2
    ∧ (2 : Nat) ≠ 0 := by
  decide

/-- Conversation resolution on a clean session always succeeds when its commit
does, and it changes no message rows. -/
theorem getOrCreateConversation_clean (s : Session) (userId now : Nat)
    (hclean : s.current = s.committed) :
    ∃ conv s1, getOrCreateConversation s userId now true = .ok (conv, s1)
      ∧ s1.current = s1.committed
      ∧ s1.current.msgs = s.current.msgs := by
  rcases hfind : s.current.convs.find? (fun c => c.userId == userId && c.endTime == none)
    with _ | conv
  · refine ⟨⟨s.current.nextConvId, userId, now, none⟩,
      sessCommit { s with current := { s.current with
        convs := s.current.convs ++ [⟨s.current.nextConvId, userId, now, none⟩],
        nextConvId := s.current.nextConvId + 1 } }, ?_, rfl, rfl⟩
    unfold getOrCreateConversation
    rw [hfind]
    simp
  · exact ⟨conv, s, by unfold getOrCreateConversation; rw [hfind], hclean, rfl⟩

/-- The session `process_message` hands back always has its working state equal
to its committed state (the turn ends in either a commit or a rollback). -/
theorem pmSession_clean (env : PipelineEnv) (s1 : Session) (conv : Conv)
    (userId now : Nat) (message : String) :
    (pmSession env s1 conv userId message now).current
      = (pmSession env s1 conv userId message now).committed := by
  unfold pmSession
  by_cases hf : env.finalCommitOk <;>
    simp [hf, sessCommit, sessRollback]

/-- If the affect-log tool ran and its commit succeeded, the turn's two message
rows are durably committed whatever happens to the final commit. -/
theorem pmSession_committed_msgs_logCommit (env : PipelineEnv) (s1 : Session)
    (conv : Conv) (userId now : Nat) (message : String)
    (hla : env.logAvail = true) (hlc : env.logCommitOk = true) :
    (pmSession env s1 conv userId message now).committed.msgs
      = s1.current.msgs ++
        [⟨conv.id, message, "user",
            some (inferAffect env.emotionAvail s1.current conv.id).emotion, now⟩,
         ⟨conv.id, finalContent env, "assistant", none, now⟩] := by
  unfold pmSession
  by_cases hf : env.finalCommitOk <;>
    simp [hf, hla, hlc, emotionLogRun, sessCommit, sessRollback, sessAddMsg]

/-- If no affect-log commit happened and the final commit fails, the rollback
discards the user and assistant rows together: no message row survives. -/
theorem pmSession_committed_msgs_noLogCommit (env : PipelineEnv) (s1 : Session)
    (conv : Conv) (userId now : Nat) (message : String)
    (hfinal : env.finalCommitOk = false)
    (hl : env.logAvail = false ∨ env.logCommitOk = false) :
    (pmSession env s1 conv userId message now).committed.msgs
      = s1.committed.msgs := by
  unfold pmSession
  rcases hl with hl | hl
  · simp [hl, hfinal, sessRollback, sessAddMsg]
  · by_cases hla : env.logAvail <;>
      simp [hla, hl, hfinal, emotionLogRun, sessRollback, sessCommit, sessAddMsg]

/-- Claim C2 (amended): when the final persistence commit fails, the exception
is caught and swallowed — `process_message` returns the already-computed
`{text, affect}` normally, surfacing nothing to the caller — and the writes do
not roll back as one unit in general: when the affect-log capability ran and
its own commit succeeded, the user turn, assistant turn and affect log were
already durably committed by that earlier commit and remain observable; only
when no affect-log commit happened does the failing final commit discard the
user and assistant turns together (leaving no partial row). -/
theorem process_message_commit_failure
    (env : PipelineEnv) (s : Session) (userId now : Nat) (message : String)
    (hclean : s.current = s.committed)
    (hconv : env.convCommitOk = true)
    (hfinal : env.finalCommitOk = false) :
    ∃ (resp : AgentResponse) (s' : Session),
      processMessage env s userId message now = .ok (resp, s')
      ∧ resp.content = finalContent env
      ∧ s'.current = s'.committed
      ∧ (env.logAvail = true → env.logCommitOk = true →
          ∃ u a, s'.committed.msgs = s.committed.msgs ++ [u, a]
            ∧ u.role = "user" ∧ a.role = "assistant" ∧ a.content = resp.content)
      ∧ ((env.logAvail = false ∨ env.logCommitOk = false) →
          s'.committed.msgs = s.committed.msgs) := by
  obtain ⟨conv, s1, hg, hcl1, hmsgs1⟩ := getOrCreateConversation_clean s userId now hclean
  rw [← hconv] at hg
  have hpm := processMessage_ok env s userId now message conv s1 hg
  refine ⟨_, _, hpm, rfl, pmSession_clean env s1 conv userId now message, ?_, ?_⟩
  · intro hla hlc
    refine ⟨⟨conv.id, message, "user",
        some (inferAffect env.emotionAvail s1.current conv.id).emotion, now⟩,
      ⟨conv.id, finalContent env, "assistant", none, now⟩, ?_, rfl, rfl, rfl⟩
    rw [pmSession_committed_msgs_logCommit env s1 conv userId now message hla hlc,
      hmsgs1, hclean]
  · intro hl
    rw [pmSession_committed_msgs_noLogCommit env s1 conv userId now message hfinal hl,
      hcl1.symm, hmsgs1, hclean]

/-- Witness for the amended claim C2 at the empty store with an absent
affect-log capability. -/
theorem process_message_commit_failure_witness :
    ∃ (resp : AgentResponse) (s' : Session),
      processMessage ⟨true, true, false, some "好的", true, true, false⟩ demoSession 7 "在吗" 100
        = .ok (resp, s')
      ∧ resp.content = finalContent ⟨true, true, false, some "好的", true, true, false⟩
      ∧ s'.current = s'.committed
      ∧ ((⟨true, true, false, some "好的", true, true, false⟩ : PipelineEnv).logAvail = true →
          (⟨true, true, false, some "好的", true, true, false⟩ : PipelineEnv).logCommitOk = true →
          ∃ u a, s'.committed.msgs = demoSession.committed.msgs ++ [u, a]
            ∧ u.role = "user" ∧ a.role = "assistant" ∧ a.content = resp.content)
      ∧ (((⟨true, true, false, some "好的", true, true, false⟩ : PipelineEnv).logAvail = false ∨
          (⟨true, true, false, some "好的", true, true, false⟩ : PipelineEnv).logCommitOk = false) →
          s'.committed.msgs = demoSession.committed.msgs) :=
  process_message_commit_failure ⟨true, true, false, some "好的", true, true, false⟩
    demoSession 7 100 "在吗" rfl rfl rfl

/-! ## Claim C3: affect inference -/

/-- The two-prior-turns-tagged-tired store from the end-to-end scenario. -/
def twoTiredDB : DB :=
  ⟨[⟨1, 7, 0, none⟩],
   [⟨1, "昨晚加班到很晚", "user", some "tired", 1⟩,
    ⟨1, "一直没睡好", "user", some "tired", 2⟩],
   [], [], 2⟩

/-- The label `majorityLabel` returns occurs in the list and has maximal
multiplicity. -/
theorem majorityLabel_spec (l : List String) (hne : l ≠ []) :
    majorityLabel l ∈ l ∧ ∀ e ∈ l, l.count e ≤ l.count (majorityLabel l) := by
  unfold majorityLabel
  have hd : l.dedup ≠ [] := by
    intro h
    exact hne ((List.dedup_eq_nil _).mp h)
  obtain ⟨m, hm⟩ : ∃ m, l.dedup.argmax (fun x => l.count x) = some m := by
    cases harg : l.dedup.argmax (fun x => l.count x) with
    | some m => exact ⟨m, rfl⟩
    | none => exact absurd (List.argmax_eq_none.mp harg) hd
  rw [hm]
  simp only [Option.getD_some]
  have hmem : m ∈ l.dedup.argmax (fun x => l.count x) := Option.mem_def.mpr hm
  constructor
  · exact List.mem_dedup.mp (List.argmax_mem hmem)
  · intro e he
    exact List.le_of_mem_argmax (List.mem_dedup.mpr he) hmem

/-- Claim C3: the affect `process_message` infers is exactly
`{"neutral", 0.5}` when the affect-analysis capability is unavailable or when
no message in the five-message window carries a label; otherwise its intensity
is `distinct labels / labeled messages` and its label is a majority-vote label
(it occurs in the window and no label occurs more often); in particular two
prior turns both tagged "tired" yield `{"tired", 0.5}`. -/
theorem inferred_affect_spec (avail : Bool) (db : DB) (conversationId : Nat) :
    (avail = false → inferAffect avail db conversationId = defaultAffect)
    ∧ (recentLabels db conversationId = [] →
        inferAffect avail db conversationId = defaultAffect)
    ∧ (avail = true → recentLabels db conversationId ≠ [] →
        (inferAffect avail db conversationId).intensity
            = ((recentLabels db conversationId).dedup.length : ℚ)
              / ((recentLabels db conversationId).length : ℚ)
        ∧ (inferAffect avail db conversationId).emotion ∈ recentLabels db conversationId
        ∧ ∀ e ∈ recentLabels db conversationId,
            (recentLabels db conversationId).count e
              ≤ (recentLabels db conversationId).count
                  (inferAffect avail db conversationId).emotion)
    ∧ inferAffect true twoTiredDB 1 = ⟨"tired", 1/2⟩
    ∧ defaultAffect = ⟨"neutral", 1/2⟩ := by
  have htired : inferAffect true twoTiredDB 1 = ⟨"tired", 1/2⟩ := by
    have hlab : recentLabels twoTiredDB 1 = ["tired", "tired"] := by decide
    have hmaj : majorityLabel ["tired", "tired"] = "tired" := by decide
    have hded : (["tired", "tired"] : List String).dedup = ["tired"] := by decide
    simp only [inferAffect, if_true]
    unfold emotionAnalysisRun
    rw [hlab]
    simp only [List.isEmpty_cons, Bool.false_eq_true, if_false, hmaj, hded]
    norm_num
  refine ⟨?_, ?_, ?_, htired, rfl⟩
  · intro h
    simp [inferAffect, h]
  · intro h
    cases avail with
    | false => simp [inferAffect]
    | true =>
        simp only [inferAffect, if_true]
        unfold emotionAnalysisRun
        rw [h]
        rfl
  · intro ht hne
    have hmaj := majorityLabel_spec (recentLabels db conversationId) hne
    have hrun : inferAffect avail db conversationId
        = ⟨majorityLabel (recentLabels db conversationId),
           ((recentLabels db conversationId).dedup.length : ℚ)
             / ((recentLabels db conversationId).length : ℚ)⟩ := by
      rw [ht]
      simp only [inferAffect, if_true]
      unfold emotionAnalysisRun
      rw [if_neg (by simpa using hne)]
    rw [hrun]
    exact ⟨rfl, hmaj.1, hmaj.2⟩

/-- Witness for claim C3 at the two-tired store with the capability
available. -/
theorem inferred_affect_spec_witness :
    (true = false → inferAffect true twoTiredDB 1 = defaultAffect)
    ∧ (recentLabels twoTiredDB 1 = [] → inferAffect true twoTiredDB 1 = defaultAffect)
    ∧ (true = true → recentLabels twoTiredDB 1 ≠ [] →
        (inferAffect true twoTiredDB 1).intensity
            = ((recentLabels twoTiredDB 1).dedup.length : ℚ)
              / ((recentLabels twoTiredDB 1).length : ℚ)
        ∧ (inferAffect true twoTiredDB 1).emotion ∈ recentLabels twoTiredDB 1
        ∧ ∀ e ∈ recentLabels twoTiredDB 1,
            (recentLabels twoTiredDB 1).count e
              ≤ (recentLabels twoTiredDB 1).count (inferAffect true twoTiredDB 1).emotion)
    ∧ inferAffect true twoTiredDB 1 = ⟨"tired", 1/2⟩
    ∧ defaultAffect = ⟨"neutral", 1/2⟩ :=
  inferred_affect_spec true twoTiredDB 1

/-! ## Claim C6: capability dispatcher -/

/-- Observation language for dispatcher outcomes: what `get_tool` hands its
caller for a name, versus the structured record the spec describes for an
absent capability. -/
inductive DispatchOutcome where
  | handler (h : Nat)
  | pyNone
  | unavailableRecord (success : Bool) (reason : String)
deriving DecidableEq

/-- Modelled from the spec: the distinguished outcome the dispatcher section
prescribes for an absent capability name, the record
`{success: false, reason: "capability unavailable"}`. -/
def specUnavailableOutcome : DispatchOutcome :=
  .unavailableRecord false "capability unavailable"

/-- What the code returns, viewed in the observation language: `dict.get`
yields Python `None` or the registered handler, never a record. -/
def codeDispatchOutcome (r : Option Nat) : DispatchOutcome :=
  match r with
  | none => .pyNone
  | some h => .handler h

/-- The registry `tools_by_name` of `CompanionAgent.__init__`, handlers
abstracted to their position in `tools_list` (the optional Letta tool is the
conditionally registered one, absent here). -/
def demoRegistry : List (String × Nat) :=
  [("emotion_analysis", 0), ("memory_recall", 1), ("safety_check", 2),
   ("emotion_log", 3), ("task_management", 4), ("work_status", 5),
   ("report_generation", 6), ("schedule_management", 7), ("team_management", 8),
   ("knowledge_base", 9), ("team_analytics", 10)]

/-- Counterexample to claim C6 as stated: resolving the unregistered name
"letta_knowledge" yields Python `None`, not the record
`{success: false, reason: "capability unavailable"}` — no such record exists
anywhere in the code's dispatcher. -/
theorem get_tool_unavailable_counterexample :
    codeDispatchOutcome (getTool demoRegistry "letta_knowledge") = .pyNone
    ∧ codeDispatchOutcome (getTool demoRegistry "letta_knowledge")
        ≠ specUnavailableOutcome := by
  decide

/-- Dictionary lookup with distinct keys finds the stored binding. -/
theorem find_key_first {α : Type} (l : List (String × α)) (name : String) (t : α)
    (hnd : (l.map Prod.fst).Nodup) (hmem : (name, t) ∈ l) :
    l.find? (fun p => p.1 == name) = some (name, t) := by
  induction l with
  | nil => cases hmem
  | cons q rest ih =>
      simp only [List.map_cons, List.nodup_cons] at hnd
      rcases List.mem_cons.mp hmem with heq | hm
      · rw [← heq]
        exact List.find?_cons_of_pos (p := fun r : String × α => r.1 == name) _ (by simp)
      · have hkey : name ∈ rest.map Prod.fst := List.mem_map.mpr ⟨(name, t), hm, rfl⟩
        have hne : ¬(q.1 == name) = true := by
          intro hbeq
          have hpe : q.1 = name := by simpa using hbeq
          rw [hpe] at hnd
          exact hnd.1 hkey
        rw [List.find?_cons_of_neg (p := fun r : String × α => r.1 == name) _ hne]
        exact ih hnd.2 hm

/-- Claim C6 (amended): for every capability name not present in the registry,
`get_tool` never raises and returns the distinguished absence value (`None`,
here `none`) — not a structured record; and for every name registered under
distinct keys, `get_tool` returns exactly the handler registered under that
name. -/
theorem get_tool_spec {α : Type} (ts : List (String × α)) (name : String) :
    (name ∉ ts.map Prod.fst → getTool ts name = none)
    ∧ (∀ t : α, (ts.map Prod.fst).Nodup → (name, t) ∈ ts →
        getTool ts name = some t) := by
  constructor
  · intro h
    unfold getTool
    rw [List.find?_eq_none.mpr ?_]
    · rfl
    · intro x hx hbeq
      exact h (List.mem_map.mpr ⟨x, List.mem_reverse.mp hx, by simpa using hbeq⟩)
  · intro t hnd hmem
    unfold getTool
    rw [find_key_first ts.reverse name t
      (by rw [List.map_reverse]; exact List.nodup_reverse.mpr hnd)
      (List.mem_reverse.mpr hmem)]
    rfl

/-- Witness for the amended claim C6 at the concrete registry and the
registered name "safety_check". -/
theorem get_tool_spec_witness :
    ("safety_check" ∉ demoRegistry.map Prod.fst →
        getTool demoRegistry "safety_check" = none)
    ∧ (∀ t : Nat, (demoRegistry.map Prod.fst).Nodup →
        ("safety_check", t) ∈ demoRegistry →
        getTool demoRegistry "safety_check" = some t) :=
  get_tool_spec demoRegistry "safety_check"

/-! ## Claim C7: only conversation resolution is fatal -/

/-- Claim C7: conversation resolution is the only stage of `process_message`
whose failure reaches the caller.  If the subject has no open conversation and
the creation commit fails, the staged conversation is rolled back and the error
re-raised (the surfaced session is exactly the rolled-back one); in every other
situation — whatever the generation outcome, capability availability, affect-log
commit fate and final commit fate — the call returns normally. -/
theorem conversation_resolution_only_fatal
    (env : PipelineEnv) (s : Session) (userId now : Nat) (message : String) :
    (s.current.convs.find? (fun c => c.userId == userId && c.endTime == none) = none →
      env.convCommitOk = false →
      processMessage env s userId message now = .error ⟨s.committed, s.committed⟩)
    ∧ ((∃ conv, s.current.convs.find?
          (fun c => c.userId == userId && c.endTime == none) = some conv)
        ∨ env.convCommitOk = true →
      ∃ resp s', processMessage env s userId message now = .ok (resp, s')) := by
  constructor
  · intro hfind hcf
    have hg : getOrCreateConversation s userId now env.convCommitOk
        = .error ⟨s.committed, s.committed⟩ := by
      unfold getOrCreateConversation
      rw [hfind, hcf]
      simp [sessRollback]
    exact processMessage_error env s userId now message _ hg
  · intro h
    obtain ⟨conv, s1, hg⟩ :
        ∃ conv s1, getOrCreateConversation s userId now env.convCommitOk
          = .ok (conv, s1) := by
      rcases h with ⟨conv, hfind⟩ | hcv
      · exact ⟨conv, s, by unfold getOrCreateConversation; rw [hfind]⟩
      · rcases hfind : s.current.convs.find?
            (fun c => c.userId == userId && c.endTime == none) with _ | conv
        · refine ⟨⟨s.current.nextConvId, userId, now, none⟩,
            sessCommit { s with current := { s.current with
              convs := s.current.convs ++ [⟨s.current.nextConvId, userId, now, none⟩],
              nextConvId := s.current.nextConvId + 1 } }, ?_⟩
          unfold getOrCreateConversation
          rw [hfind, hcv]
          simp
        · exact ⟨conv, s, by unfold getOrCreateConversation; rw [hfind]⟩
    exact ⟨_, _, processMessage_ok env s userId now message conv s1 hg⟩

/-- Witness for claim C7 at the empty store with a failing creation commit:
the fatal branch fires with exactly the rolled-back session surfaced. -/
theorem conversation_resolution_only_fatal_witness :
    (demoSession.current.convs.find? (fun c => c.userId == 7 && c.endTime == none) = none →
      (⟨true, true, true, some "好的", false, true, true⟩ : PipelineEnv).convCommitOk = false →
      processMessage ⟨true, true, true, some "好的", false, true, true⟩ demoSession 7 "在吗" 100
        = .error ⟨demoSession.committed, demoSession.committed⟩)
    ∧ ((∃ conv, demoSession.current.convs.find?
          (fun c => c.userId == 7 && c.endTime == none) = some conv)
        ∨ (⟨true, true, true, some "好的", false, true, true⟩ : PipelineEnv).convCommitOk = true →
      ∃ resp s', processMessage ⟨true, true, true, some "好的", false, true, true⟩
          demoSession 7 "在吗" 100 = .ok (resp, s')) :=
  conversation_resolution_only_fatal ⟨true, true, true, some "好的", false, true, true⟩
    demoSession 7 100 "在吗"

/-! ## Claim C8: at most one open conversation per subject -/
/-- Number of open (null `end_time`) conversation rows of one subject. -/
def openConvCount (db : DB) (userId : Nat) : Nat :=
  db.convs.countP (fun c => c.userId == userId && c.endTime == none)

/-- The invariant: at most one open conversation per subject. -/
def ConvInvariant (db : DB) : Prop := ∀ uid, openConvCount db uid ≤ 1

/-- Setting `end_time` on a row can only lose open rows, never gain any. -/
theorem openCount_setEndTime (l : List Conv) (cid now uid : Nat) :
    (setEndTime l cid now).countP (fun c => c.userId == uid && c.endTime == none)
      ≤ l.countP (fun c => c.userId == uid && c.endTime == none) := by
  induction l with
  | nil => simp [setEndTime]
  | cons c rest ih =>
      unfold setEndTime
      by_cases h : (c.id == cid) = true
      · rw [if_pos h]
        simp only [List.countP_cons]
        have hsome : ((some now : Option Nat) == none) = false := rfl
        rw [hsome, Bool.and_false]
        simp only [Bool.false_eq_true, if_false, Nat.add_zero]
        exact Nat.le_add_right _ _
      · rw [if_neg h]
        simp only [List.countP_cons]
        exact Nat.add_le_add ih le_rfl

/-- Claim C8: both conversation-lifecycle operations preserve the invariant
"at most one open conversation per subject", on the working state and on the
committed state: `_get_or_create_conversation` creates a new open conversation
only when the subject has none open (the created row is the subject's single
open one), and `end_conversation` only closes rows — moreover it leaves a
conversation whose `end_time` is already set entirely untouched. -/
theorem conversation_open_invariant
    (s : Session) (userId cid now : Nat) (ok ok' : Bool)
    (hcur : ConvInvariant s.current) (hcom : ConvInvariant s.committed) :
    (match getOrCreateConversation s userId now ok with
      | .ok (_, s1) => ConvInvariant s1.current ∧ ConvInvariant s1.committed
      | .error sErr => ConvInvariant sErr.current ∧ ConvInvariant sErr.committed)
    ∧ (ConvInvariant (endConversation s cid now ok').current
        ∧ ConvInvariant (endConversation s cid now ok').committed)
    ∧ (∀ conv, s.current.convs.find? (fun c => c.id == cid) = some conv →
        conv.endTime ≠ none → endConversation s cid now ok' = s) := by
  refine ⟨?_, ?_, ?_⟩
  · rcases hfind : s.current.convs.find?
        (fun c => c.userId == userId && c.endTime == none) with _ | conv
    · have hzero : openConvCount s.current userId = 0 := by
        unfold openConvCount
        rw [List.countP_eq_zero]
        exact List.find?_eq_none.mp hfind
      have hinv' : ConvInvariant { s.current with
          convs := s.current.convs ++ [⟨s.current.nextConvId, userId, now, none⟩],
          nextConvId := s.current.nextConvId + 1 } := by
        intro uid
        have hbase := hcur uid
        unfold openConvCount at hzero hbase ⊢
        simp only [List.countP_append, List.countP_cons, List.countP_nil]
        have hnone : ((none : Option Nat) == none) = true := rfl
        by_cases huid : userId = uid
        · subst huid
          simp only [hnone, Bool.and_true, beq_self_eq_true, if_true]
          omega
        · have hne : (userId == uid) = false := by
            simp [huid]
          simp only [hnone, Bool.and_true, hne, Bool.false_eq_true, if_false]
          omega
      unfold getOrCreateConversation
      rw [hfind]
      cases ok
      · exact ⟨hcom, hcom⟩
      · exact ⟨hinv', hinv'⟩
    · unfold getOrCreateConversation
      rw [hfind]
      exact ⟨hcur, hcom⟩
  · have hinv' : ConvInvariant { s.current with
        convs := setEndTime s.current.convs cid now } := by
      intro uid
      exact le_trans (openCount_setEndTime s.current.convs cid now uid) (hcur uid)
    unfold endConversation
    split
    · exact ⟨hcur, hcom⟩
    · split
      · cases ok'
        · exact ⟨hcom, hcom⟩
        · exact ⟨hinv', hinv'⟩
      · exact ⟨hcur, hcom⟩
  · intro conv hfind hend
    unfold endConversation
    split
    · rfl
    · rename_i conv' heq
      rw [hfind] at heq
      injection heq with heq'
      subst heq'
      rw [if_neg hend]

/-- Witness for claim C8 at the empty store (both operations applied to a
clean invariant-satisfying session). -/
theorem conversation_open_invariant_witness :
    (match getOrCreateConversation demoSession 7 100 true with
      | .ok (_, s1) => ConvInvariant s1.current ∧ ConvInvariant s1.committed
      | .error sErr => ConvInvariant sErr.current ∧ ConvInvariant sErr.committed)
    ∧ (ConvInvariant (endConversation demoSession 1 100 true).current
        ∧ ConvInvariant (endConversation demoSession 1 100 true).committed)
    ∧ (∀ conv, demoSession.current.convs.find? (fun c => c.id == 1) = some conv →
        conv.endTime ≠ none → endConversation demoSession 1 100 true = demoSession) :=
  conversation_open_invariant demoSession 7 1 100 true true
    (fun uid => by simp [openConvCount, demoSession, demoDB])
    (fun uid => by simp [openConvCount, demoSession, demoDB])

/-! ## Claim C10: at most one open work-status row -/

/-- Number of open (null `end_time`) `work_status` rows. -/
def openWSCount (db : DB) : Nat :=
  db.workStatuses.countP (fun w => w.endTime == none)

/-- Closing the first open row leaves no open row when there was at most
one. -/
theorem closeFirstOpenWS_count (l : List WorkStatusRow) (now : Nat)
    (h : l.countP (fun w => w.endTime == none) ≤ 1) :
    (closeFirstOpenWS l now).countP (fun w => w.endTime == none) = 0 := by
  induction l with
  | nil => simp [closeFirstOpenWS]
  | cons w rest ih =>
      unfold closeFirstOpenWS
      by_cases hw : (w.endTime == none) = true
      · rw [if_pos hw]
        simp only [List.countP_cons, hw, if_true] at h
        simp only [List.countP_cons]
        have hsome : ((some now : Option Nat) == none) = false := rfl
        rw [hsome]
        simp only [Bool.false_eq_true, if_false, Nat.add_zero]
        omega
      · rw [if_neg hw]
        simp only [List.countP_cons, hw, Bool.false_eq_true, if_false,
          Nat.add_zero] at h
        simp only [List.countP_cons, hw, Bool.false_eq_true, if_false,
          Nat.add_zero]
        exact ih h

/-- The working state a successful `WorkStatusTool._run` commits. -/
def wsNewCurrent (s : Session) (status : String) (description : Option String)
    (taskId : Option Nat) (now : Nat) : DB :=
  { s.current with workStatuses :=
      closeFirstOpenWS s.current.workStatuses now
        ++ [⟨status, now, none, description, taskId⟩] }

theorem workStatusRun_eq (s : Session) (status : String)
    (description : Option String) (taskId : Option Nat) (now : Nat) (ok : Bool) :
    workStatusRun s status description taskId now ok
      = if ok then
          (true, ⟨wsNewCurrent s status description taskId now,
                  wsNewCurrent s status description taskId now⟩)
        else (false, ⟨s.committed, s.committed⟩) := by
  unfold workStatusRun wsNewCurrent
  cases ok
  · rfl
  · rfl

/-- Claim C10: starting from at most one open `work_status` row, a
`WorkStatusTool._run` whose commit succeeds reports success, closes the
previously open row if any, and leaves exactly one open row — the newly created
one, which is precisely the row the `GET /work-status` query finds — so the
endpoint's open-status query is unambiguous; a failed commit rolls back to the
committed state, and the invariant holds in every case. -/
theorem work_status_invariant (s : Session) (status : String)
    (description : Option String) (taskId : Option Nat) (now : Nat) (ok : Bool)
    (hcur : openWSCount s.current ≤ 1) (hcom : openWSCount s.committed ≤ 1) :
    (ok = true →
      (workStatusRun s status description taskId now ok).1 = true
      ∧ openWSCount (workStatusRun s status description taskId now ok).2.current = 1
      ∧ openWSCount (workStatusRun s status description taskId now ok).2.committed = 1
      ∧ getWorkStatus (workStatusRun s status description taskId now ok).2.committed
          = some ⟨status, now, none, description, taskId⟩)
    ∧ (ok = false →
        (workStatusRun s status description taskId now ok).1 = false
        ∧ (workStatusRun s status description taskId now ok).2
            = ⟨s.committed, s.committed⟩)
    ∧ openWSCount (workStatusRun s status description taskId now ok).2.current ≤ 1
    ∧ openWSCount (workStatusRun s status description taskId now ok).2.committed ≤ 1 := by
  have hclosed := closeFirstOpenWS_count s.current.workStatuses now hcur
  have hcount : openWSCount (wsNewCurrent s status description taskId now) = 1 := by
    unfold openWSCount wsNewCurrent
    simp only [List.countP_append, List.countP_cons, List.countP_nil]
    have hnone : ((none : Option Nat) == none) = true := rfl
    simp only [hnone, if_true]
    omega
  have hfound : getWorkStatus (wsNewCurrent s status description taskId now)
      = some ⟨status, now, none, description, taskId⟩ := by
    unfold getWorkStatus wsNewCurrent
    rw [List.find?_append]
    rw [List.find?_eq_none.mpr (List.countP_eq_zero.mp hclosed)]
    rfl
  rw [workStatusRun_eq]
  cases ok
  · exact ⟨fun h => absurd h Bool.false_ne_true, fun _ => ⟨rfl, rfl⟩, hcom, hcom⟩
  · exact ⟨fun _ => ⟨rfl, hcount, hcount, hfound⟩,
      fun h => Bool.noConfusion h, le_of_eq hcount, le_of_eq hcount⟩

/-- Witness for claim C10 at the empty store with a successful commit. -/
theorem work_status_invariant_witness :
    (true = true →
      (workStatusRun demoSession "busy" none none 100 true).1 = true
      ∧ openWSCount (workStatusRun demoSession "busy" none none 100 true).2.current = 1
      ∧ openWSCount (workStatusRun demoSession "busy" none none 100 true).2.committed = 1
      ∧ getWorkStatus (workStatusRun demoSession "busy" none none 100 true).2.committed
          = some ⟨"busy", 100, none, none, none⟩)
    ∧ (true = false →
        (workStatusRun demoSession "busy" none none 100 true).1 = false
        ∧ (workStatusRun demoSession "busy" none none 100 true).2
            = ⟨demoSession.committed, demoSession.committed⟩)
    ∧ openWSCount (workStatusRun demoSession "busy" none none 100 true).2.current ≤ 1
    ∧ openWSCount (workStatusRun demoSession "busy" none none 100 true).2.committed ≤ 1 :=
  work_status_invariant demoSession "busy" none none 100 true
    (by simp [openWSCount, demoSession, demoDB])
    (by simp [openWSCount, demoSession, demoDB])

end DigitalEmployee
